import Mathlib

/-!
A shallow embedding of the measurement-to-field pipeline of `Wifi-heatmap.py`.

Modelling conventions:
* Python dictionaries become association lists (`List (κ × β)`) with
  insertion-order preserving assignment (`dictSet`) and first-match lookup.
* IEEE floats that are only stored and compared (the measurement store) become
  exact rationals: every finite float is a rational and float comparison is
  exact rational comparison.
* Floats that flow through `math.pow` / `math.log10` / `numpy` arithmetic
  (the scan aggregator, calibration, the interpolation grid) become real
  numbers.
* A Python runtime error (e.g. `max([])` raising `ValueError`) becomes `none`
  in an `Option`-valued function.
* GUI wiring (buttons, dialogs, drawing) is out of scope; dialog outcomes are
  passed in as explicit inputs.
-/

/-! ### Python dictionaries as association lists -/

/-- First-match lookup in an association list, i.e. `d[k]` / `d.get(k)`. -/
def dictLookup {κ β : Type} [DecidableEq κ] : List (κ × β) → κ → Option β
  | [], _ => none
  | (k2, v) :: rest, k => if k2 = k then some v else dictLookup rest k

/-- Python `k in d`. -/
def dictContains {κ β : Type} [DecidableEq κ] (d : List (κ × β)) (k : κ) : Bool :=
  (dictLookup d k).isSome

/-- Python `d[k] = v`: replace the value in place if the key is present,
otherwise append the new key at the end (insertion order). -/
def dictSet {κ β : Type} [DecidableEq κ] : List (κ × β) → κ → β → List (κ × β)
  | [], k, v => [(k, v)]
  | (k2, v2) :: rest, k, v =>
    if k2 = k then (k, v) :: rest else (k2, v2) :: dictSet rest k v

/-- Python `d.keys()`. -/
def dictKeys {κ β : Type} (d : List (κ × β)) : List κ := d.map Prod.fst

/-! ### Measurement store

`self.measurements` is a Python list of `(x, y, ssid, signal_strength)`
tuples; the upsert logic is lines 233-241 of `perform_scan`. -/

/-- One entry of `self.measurements`: `(x, y, ssid, signal_strength)`. -/
structure Measurement where
  x : ℤ
  y : ℤ
  ssid : String
  strength : ℚ
deriving DecidableEq

/-- The predicate of line 235: `m[0] == x and m[1] == y and m[2] == ssid`. -/
def keyMatches (x y : ℤ) (ssid : String) (m : Measurement) : Bool :=
  m.x == x && m.y == y && m.ssid == ssid

/-- Line 235: `next((m for m in self.measurements if ...), None)` — the first
measurement matching the exact `(x, y, ssid)` key. -/
def findMeasurement (ms : List Measurement) (x y : ℤ) (ssid : String) : Option Measurement :=
  ms.find? (keyMatches x y ssid)

/-- Lines 235-241 of `perform_scan`: if a measurement exists for the key,
replace it only when the new value is strictly greater, else append.
`measurements.remove(existing)` removes the first list element equal to
`existing`; since `existing` is the first key match and every element equal to
`existing` also matches the key, that is exactly the first key match, i.e.
`eraseP (keyMatches x y ssid)`.  The replacement is re-appended at the end,
as `list.append` does. -/
def upsert (ms : List Measurement) (x y : ℤ) (ssid : String) (v : ℚ) : List Measurement :=
  match findMeasurement ms x y ssid with
  | some m =>
    if v > m.strength then ms.eraseP (keyMatches x y ssid) ++ [⟨x, y, ssid, v⟩] else ms
  | none => ms ++ [⟨x, y, ssid, v⟩]

/-- The value currently stored for an exact `(x, y, ssid)` key, if any. -/
def storedValue (ms : List Measurement) (x y : ℤ) (ssid : String) : Option ℚ :=
  (findMeasurement ms x y ssid).map Measurement.strength

/-- Two measurements have the same `(x, y, ssid)` key. -/
def sameKeyB (a b : Measurement) : Bool :=
  a.x == b.x && a.y == b.y && a.ssid == b.ssid

/-- The store invariant: at most one measurement per `(x, y, ssid)` key. -/
def keyUnique : List Measurement → Bool
  | [] => true
  | m :: rest => rest.all (fun m2 => !sameKeyB m m2) && keyUnique rest

/-! ### Per-network samples for the heatmap (`generate_heatmap`, lines 279-284) -/

/-- One step of the loop of lines 280-284: for a measurement of the chosen
SSID, keyed by location `(x, y)`, set the value when the key is absent or the
new strength is strictly greater. -/
def filterStep (ssid : String) (acc : List ((ℤ × ℤ) × ℚ)) (m : Measurement) :
    List ((ℤ × ℤ) × ℚ) :=
  if m.ssid = ssid then
    match dictLookup acc (m.x, m.y) with
    | none => dictSet acc (m.x, m.y) m.strength
    | some w => if m.strength > w then dictSet acc (m.x, m.y) m.strength else acc
  else acc

/-- Lines 279-284: the `filtered_measurements` dictionary built from the
stored measurements for one chosen SSID. -/
def filtered_measurements (ms : List Measurement) (ssid : String) :
    List ((ℤ × ℤ) × ℚ) :=
  ms.foldl (filterStep ssid) []

/-- The maximum of a list of rationals, `none` for the empty list (used to
state properties; not part of the source). -/
def listMaxQ : List ℚ → Option ℚ
  | [] => none
  | a :: l => some (match listMaxQ l with | none => a | some b => max a b)

/-- Maximum of two optional rationals (used to state properties). -/
def optMaxQ : Option ℚ → Option ℚ → Option ℚ
  | none, b => b
  | some a, none => some a
  | some a, some b => some (max a b)

/-! ### Calibration (`calculate_pixels_per_meter`, lines 121-128, and
`handle_calibration_click`, lines 155-182) -/

/-- Line 124: `np.sqrt((p2[0]-p1[0])**2 + (p2[1]-p1[1])**2)`; the clicked
points have integer pixel coordinates (line 141). -/
noncomputable def pixelDistance (p1 p2 : ℤ × ℤ) : ℝ :=
  Real.sqrt (((p2.1 : ℝ) - (p1.1 : ℝ)) ^ 2 + ((p2.2 : ℝ) - (p1.2 : ℝ)) ^ 2)

/-- Lines 121-128: when exactly two calibration points exist, set
`pixels_per_meter = pixel_distance / distance_meters`; otherwise do nothing
(`none` means the attribute is left unchanged). -/
noncomputable def calculate_pixels_per_meter : List (ℤ × ℤ) → ℝ → Option ℝ
  | [p1, p2], distanceMeters => some (pixelDistance p1 p2 / distanceMeters)
  | _, _ => none

/-- The calibration-relevant state of the application object. -/
structure CalibState where
  calibrationPoints : List (ℤ × ℤ)
  isCalibrating : Bool
  enabledScans : Bool
  pixelsPerMeter : Option ℝ

/-- The state after `load_map` → `start_calibration` (lines 108-112):
calibrating, no points, scanning disabled, no scale. -/
def initialCalibState : CalibState :=
  { calibrationPoints := [], isCalibrating := true, enabledScans := false,
    pixelsPerMeter := none }

/-- Lines 155-182: a calibration click at `(x, y)`.  The point is appended
unconditionally (line 156).  At the second point the modal distance dialog
runs: `dialog = some d` models the user confirming distance `d`,
`dialog = none` models cancelling.  On confirmation the scale is computed and
calibration ends; on cancel, and for any click beyond the second, only the
point list grows. -/
noncomputable def handle_calibration_click (s : CalibState) (x y : ℤ)
    (dialog : Option ℝ) : CalibState :=
  let pts := s.calibrationPoints ++ [(x, y)]
  if pts.length = 1 then { s with calibrationPoints := pts }
  else if pts.length = 2 then
    match dialog with
    | some distance =>
      { s with
        calibrationPoints := pts
        pixelsPerMeter :=
          match calculate_pixels_per_meter pts distance with
          | some v => some v
          | none => s.pixelsPerMeter
        isCalibrating := false
        enabledScans := true }
    | none => { s with calibrationPoints := pts }
  else { s with calibrationPoints := pts }

/-! ### Scan aggregation (`perform_scan`, lines 196-230, and
`mergeDictionary`, lines 190-194) -/

/-- Line 219: `math.pow(10, signal_strength / 10) / 1000`. -/
noncomputable def dbmToWatts (dbm : ℝ) : ℝ := (10 : ℝ) ^ (dbm / 10) / 1000

/-- Python `max` over a list of floats; `none` models the `ValueError` raised
on an empty list. -/
noncomputable def listMaxR : List ℝ → Option ℝ
  | [] => none
  | a :: l => some (l.foldl max a)

/-- Lines 190-194: the merged mapping, `dict1.get(key, []) + dict2.get(key, [])`
for every key (the Python function builds a dict over the union of the key
sets with exactly this value at each key). -/
def mergeDictionary (dict1 dict2 : List (String × List ℝ)) : String → List ℝ :=
  fun key => (dictLookup dict1 key).getD [] ++ (dictLookup dict2 key).getD []

/-- Lines 215-223, one raw reading `(ssid, dbm)` of the current pass:
ensure `ssid_signals_scan[ssid]` exists (line 216-217), convert to watts
(line 219), then
`if not ssid in ssid_signals or signal_watts > max(ssid_signals_scan[ssid])`
(line 222) overwrite `ssid_signals_scan[ssid] = [signal_watts]` (line 223).
The `or` short-circuits, so `max` is only evaluated when `ssid` is a key of
`ssid_signals`; `max([])` would raise (`none`). -/
noncomputable def processReading (ssidSignals scan : List (String × List ℝ))
    (ssid : String) (dbm : ℝ) : Option (List (String × List ℝ)) :=
  let scan1 := if dictContains scan ssid then scan else dictSet scan ssid []
  let watts := dbmToWatts dbm
  if dictContains ssidSignals ssid then
    match listMaxR ((dictLookup scan1 ssid).getD []) with
    | none => none
    | some m => some (if watts > m then dictSet scan1 ssid [watts] else scan1)
  else some (dictSet scan1 ssid [watts])

/-- The inner loop of lines 215-223 over all raw readings of one pass,
starting from the given `ssid_signals_scan` dictionary. -/
noncomputable def processPass (ssidSignals scan : List (String × List ℝ)) :
    List (String × ℝ) → Option (List (String × List ℝ))
  | [] => some scan
  | (ssid, dbm) :: rest =>
    match processReading ssidSignals scan ssid dbm with
    | none => none
    | some scan2 => processPass ssidSignals scan2 rest

/-- The outer loop of lines 208-225: each pass rebuilds `ssid_signals_scan`
from `{}` (line 211), and line 225 computes
`self.mergeDictionary(ssid_signals, ssid_signals_scan)` whose result is
discarded — `ssid_signals` is never reassigned, so it is threaded through
unchanged.  The value carried out of the loop is the final pass's
`ssid_signals_scan`. -/
noncomputable def runPasses (ssidSignals lastScan : List (String × List ℝ)) :
    List (List (String × ℝ)) → Option (List (String × List ℝ))
  | [] => some lastScan
  | p :: ps =>
    match processPass ssidSignals [] p with
    | none => none
    | some scan =>
      let _ := mergeDictionary ssidSignals scan
      runPasses ssidSignals scan ps

/-- Line 229: `10 * math.log10((sum(signals) / len(signals)) * 1000)`. -/
noncomputable def avgDbm (signals : List ℝ) : ℝ :=
  10 * Real.logb 10 (signals.sum / (signals.length : ℝ) * 1000)

/-- Lines 228-230: the dict comprehension over `ssid_signals_scan.items()`,
keeping nonempty lists and averaging them. -/
noncomputable def averagedSignals (scan : List (String × List ℝ)) :
    List (String × ℝ) :=
  (scan.filter (fun kv => !kv.2.isEmpty)).map (fun kv => (kv.1, avgDbm kv.2))

/-- Lines 206-230 of `perform_scan` for the fixed three passes
(`for i in range(3)`): `ssid_signals` starts as `{}` (line 206) and, because
the merge result is discarded, stays `{}`; the averaging of lines 228-230 runs
over the last pass's `ssid_signals_scan`. -/
noncomputable def perform_scan_aggregate (pass1 pass2 pass3 : List (String × ℝ)) :
    Option (List (String × ℝ)) :=
  (runPasses [] [] [pass1, pass2, pass3]).map averagedSignals

/-! ### Interpolation grid and field (`plot_heatmap`, lines 297-309) -/

/-- `np.arange(start, stop, step)` over floats: the arithmetic progression
`start + i * step` with `ceil((stop - start) / step)` entries (clipped at 0
entries). -/
noncomputable def npArange (start stop step : ℝ) : List ℝ :=
  (List.range (⌈(stop - start) / step⌉.toNat)).map (fun i : ℕ => start + (i : ℝ) * step)

/-- Lines 297-301: `grid_step = measurement_radius * pixels_per_meter`,
`x_grid = np.arange(0, width, grid_step)`, `y_grid = np.arange(0, height,
grid_step)`. -/
noncomputable def plot_heatmap_grid (width height : ℕ) (radius ppm : ℝ) :
    List ℝ × List ℝ :=
  (npArange 0 (width : ℝ) (radius * ppm), npArange 0 (height : ℝ) (radius * ppm))

/-- Line 306, `Z = rbf(X, Y)` where `X, Y = np.meshgrid(x_grid, y_grid)`:
row `i`, column `j` of `Z` is `rbf (x_grid[j]) (y_grid[i])`.  The fitted
interpolant itself comes from `scipy.interpolate.Rbf` and is abstracted as an
arbitrary function. -/
def rbfEvalGrid (rbf : ℝ → ℝ → ℝ) (xg yg : List ℝ) : List (List ℝ) :=
  yg.map (fun y => xg.map (fun x => rbf x y))

/-- Line 309, `Z = -Z`: the delivered field is the pointwise negation of the
raw interpolated grid. -/
def negatedField (rbf : ℝ → ℝ → ℝ) (xg yg : List ℝ) : List (List ℝ) :=
  (rbfEvalGrid rbf xg yg).map (fun row => row.map (fun v => -v))

/-! ### Helper lemmas -/

theorem pixelDistance_self (p : ℤ × ℤ) : pixelDistance p p = 0 := by
  unfold pixelDistance
  simp

theorem pixelDistance_pos (p1 p2 : ℤ × ℤ) (hne : p1 ≠ p2) : 0 < pixelDistance p1 p2 := by
  unfold pixelDistance
  apply Real.sqrt_pos.mpr
  have h : p1.1 ≠ p2.1 ∨ p1.2 ≠ p2.2 := by
    by_contra hc
    push_neg at hc
    exact hne (Prod.ext hc.1 hc.2)
  rcases h with h | h
  · have h1 : ((p2.1 : ℝ) - (p1.1 : ℝ)) ≠ 0 := by
      intro h0
      exact h (by exact_mod_cast (sub_eq_zero.mp h0).symm)
    have := sq_pos_iff.mpr h1
    nlinarith [sq_nonneg ((p2.2 : ℝ) - (p1.2 : ℝ))]
  · have h1 : ((p2.2 : ℝ) - (p1.2 : ℝ)) ≠ 0 := by
      intro h0
      exact h (by exact_mod_cast (sub_eq_zero.mp h0).symm)
    have := sq_pos_iff.mpr h1
    nlinarith [sq_nonneg ((p2.1 : ℝ) - (p1.1 : ℝ))]

/-! ### Claims about calibration -/

/-- Claim C5: for calibration points `p1 ≠ p2` and distance `d > 0`, the code
computes `pixelsPerMeter = pixelDistance p1 p2 / d`, and this value is
strictly positive. -/
theorem calibration_scale_positive (p1 p2 : ℤ × ℤ) (d : ℝ) (hne : p1 ≠ p2) (hd : 0 < d) :
    calculate_pixels_per_meter [p1, p2] d = some (pixelDistance p1 p2 / d) ∧
      0 < pixelDistance p1 p2 / d :=
  ⟨rfl, div_pos (pixelDistance_pos p1 p2 hne) hd⟩

/-- Witness for C5 at `p1 = (0,0)`, `p2 = (3,4)`, `d = 10`. -/
theorem calibration_scale_positive_witness :
    calculate_pixels_per_meter [((0 : ℤ), (0 : ℤ)), (3, 4)] 10 =
        some (pixelDistance (0, 0) (3, 4) / 10) ∧
      0 < pixelDistance (0, 0) (3, 4) / 10 :=
  calibration_scale_positive (0, 0) (3, 4) 10 (by decide) (by norm_num)

/-- Counterexample to claim C3: calibrating with two identical points does not
fail; the code silently computes and stores `pixelsPerMeter = 0`, a
non-positive scale (there is no `DegenerateCalibrationError` anywhere in the
code). -/
theorem calibration_identical_points_returns_zero :
    calculate_pixels_per_meter [((5 : ℤ), (5 : ℤ)), (5, 5)] 10 = some 0 := by
  show some (pixelDistance (5, 5) (5, 5) / 10) = some 0
  rw [pixelDistance_self, zero_div]

/-- Claim C3 (amended): calibrating with two identical points (zero pixel
distance) is not rejected: for any confirmed distance `d > 0` the code
produces the degenerate scale `pixelsPerMeter = 0` — not infinity and not NaN,
but also not positive, and no error is raised. -/
theorem calibration_identical_points_no_error (p : ℤ × ℤ) (d : ℝ) (hd : 0 < d) :
    calculate_pixels_per_meter [p, p] d = some 0 := by
  show some (pixelDistance p p / d) = some 0
  rw [pixelDistance_self, zero_div]

/-- Witness for the amended C3 at `p = (3,7)`, `d = 2`. -/
theorem calibration_identical_points_no_error_witness :
    calculate_pixels_per_meter [((3 : ℤ), (7 : ℤ)), (3, 7)] 2 = some 0 :=
  calibration_identical_points_no_error (3, 7) 2 (by norm_num)

/-- Counterexample to claim C9: after two calibration points are recorded and
the distance dialog is cancelled (no confirmation), a third calibration click
does not fail — the point list silently grows to length 3 and the unit is
still calibrating. -/
theorem third_click_silently_accepted :
    (handle_calibration_click (handle_calibration_click (handle_calibration_click
        initialCalibState 0 0 none) 3 4 none) 1 1 none).calibrationPoints.length = 3 ∧
    (handle_calibration_click (handle_calibration_click (handle_calibration_click
        initialCalibState 0 0 none) 3 4 none) 1 1 none).isCalibrating = true ∧
    (handle_calibration_click (handle_calibration_click initialCalibState
        0 0 none) 3 4 none).calibrationPoints.length = 2 ∧
    (handle_calibration_click (handle_calibration_click initialCalibState
        0 0 none) 3 4 none).isCalibrating = true :=
  ⟨rfl, rfl, rfl, rfl⟩

/-- Claim C9 (amended): recording a further calibration point when two (or
more) points are already present raises no error and changes nothing except
appending the point: the state is otherwise untouched. -/
theorem third_click_appends (s : CalibState) (x y : ℤ) (dialog : Option ℝ)
    (h : 2 ≤ s.calibrationPoints.length) :
    handle_calibration_click s x y dialog =
      { s with calibrationPoints := s.calibrationPoints ++ [(x, y)] } := by
  unfold handle_calibration_click
  have h1 : ¬ (s.calibrationPoints ++ [(x, y)]).length = 1 := by
    simp only [List.length_append, List.length_cons, List.length_nil]
    omega
  have h2 : ¬ (s.calibrationPoints ++ [(x, y)]).length = 2 := by
    simp only [List.length_append, List.length_cons, List.length_nil]
    omega
  simp only [h1, h2, if_false, ite_false]

/-- Witness for the amended C9: a third click on a two-point calibrating state
appends `(1,1)` and nothing else. -/
theorem third_click_appends_witness :
    handle_calibration_click ⟨[(0, 0), (3, 4)], true, false, none⟩ 1 1 none =
      ⟨[(0, 0), (3, 4), (1, 1)], true, false, none⟩ :=
  third_click_appends ⟨[(0, 0), (3, 4)], true, false, none⟩ 1 1 none (by decide)

/-! ### Claims about the scan aggregator -/

/-- Claim C1 (code evaluation): the spec requires averaging over all passes in
which a network appeared; the code computes `mergeDictionary` but discards its
result, so the final averaging runs over the last pass only.  Evaluating the
code on a scan whose first pass sees network `"A"` at `-40` dBm and whose
second and third passes do not see it: the output is the empty mapping — `"A"`
vanishes instead of averaging to `-40`. -/
theorem aggregator_drops_early_passes :
    perform_scan_aggregate [("A", -40)] [] [] = some [] := rfl

/-- Averaging the single-element watt list of a dBm value gives back that
value: `10 * log10((10 ^ (s/10) / 1000) * 1000) = s`. -/
theorem avgDbm_single (s : ℝ) : avgDbm [dbmToWatts s] = s := by
  unfold avgDbm
  have h1 : List.sum [dbmToWatts s] = dbmToWatts s := by simp
  have h2 : ((List.length [dbmToWatts s] : ℕ) : ℝ) = 1 := by simp
  rw [h1, h2]
  unfold dbmToWatts
  have h3 : (10 : ℝ) ^ (s / 10) / 1000 / 1 * 1000 = (10 : ℝ) ^ (s / 10) := by ring
  rw [h3, Real.logb_rpow (by norm_num) (by norm_num)]
  ring

/-- Claim C4 (code evaluation): the spec requires keeping the strongest
reading of a pass; because the overwrite condition of line 222 tests
membership in the always-empty `ssid_signals`, it is always true and the LAST
reading of the pass wins.  A pass that reports `"A"` at `-40` dBm and then at
`-60` dBm yields `-60`, not the stronger `-40`. -/
theorem aggregator_keeps_last_reading :
    perform_scan_aggregate [] [] [("A", -40), ("A", -60)] = some [("A", (-60 : ℝ))] := by
  have hred : perform_scan_aggregate [] [] [("A", -40), ("A", -60)] =
      some [("A", avgDbm [dbmToWatts (-60)])] := rfl
  rw [hred, avgDbm_single]

/-! ### Claims about the interpolation grid and the output field -/

theorem npArange_length (start stop step : ℝ) :
    (npArange start stop step).length = (⌈(stop - start) / step⌉).toNat := by
  unfold npArange
  rw [List.length_map, List.length_range]

theorem npArange_get (start stop step : ℝ) (i : ℕ)
    (h : i < (npArange start stop step).length) :
    (npArange start stop step).get ⟨i, h⟩ = start + (i : ℝ) * step := by
  unfold npArange at h ⊢
  simp [List.get_eq_getElem]

theorem npArange_zero_length_pos (stop step : ℝ) (hstop : 0 < stop) (hstep : 0 < step) :
    1 ≤ (npArange 0 stop step).length := by
  rw [npArange_length]
  have h : (0 : ℤ) < ⌈(stop - 0) / step⌉ := Int.ceil_pos.mpr (div_pos (by linarith) hstep)
  omega

theorem npArange_zero_mem (stop step : ℝ) (hstep : 0 < step) (a : ℝ)
    (ha : a ∈ npArange 0 stop step) : 0 ≤ a ∧ a < stop := by
  unfold npArange at ha
  rcases List.mem_map.mp ha with ⟨i, hi, rfl⟩
  have hilt : i < (⌈(stop - 0) / step⌉).toNat := List.mem_range.mp hi
  have h1 : (i : ℤ) < ⌈(stop - 0) / step⌉ := by omega
  have h2 : ((i : ℤ) : ℝ) < (stop - 0) / step := Int.lt_ceil.mp h1
  have h3 : (i : ℝ) < stop / step := by
    push_cast at h2
    rw [sub_zero] at h2
    exact h2
  have h4 : (i : ℝ) * step < stop := (lt_div_iff₀ hstep).mp h3
  have h5 : 0 ≤ (i : ℝ) * step := by positivity
  constructor
  · linarith
  · linarith

/-- Claim C6: the grid uses `gridStep = radius * pixelsPerMeter`; both axes
are regular lattices `i * gridStep` spanning `[0, width)` resp. `[0, height)`
with `ceil(extent / gridStep)` points and at least one point per axis. -/
theorem grid_lattice (width height : ℕ) (radius ppm : ℝ)
    (hw : 0 < width) (hh : 0 < height) (hr : 0 < radius) (hp : 0 < ppm) :
    ((plot_heatmap_grid width height radius ppm).1).length =
        (⌈(width : ℝ) / (radius * ppm)⌉).toNat ∧
      ((plot_heatmap_grid width height radius ppm).2).length =
        (⌈(height : ℝ) / (radius * ppm)⌉).toNat ∧
      1 ≤ ((plot_heatmap_grid width height radius ppm).1).length ∧
      1 ≤ ((plot_heatmap_grid width height radius ppm).2).length ∧
      (∀ i (h : i < ((plot_heatmap_grid width height radius ppm).1).length),
        ((plot_heatmap_grid width height radius ppm).1).get ⟨i, h⟩ =
          (i : ℝ) * (radius * ppm)) ∧
      (∀ i (h : i < ((plot_heatmap_grid width height radius ppm).2).length),
        ((plot_heatmap_grid width height radius ppm).2).get ⟨i, h⟩ =
          (i : ℝ) * (radius * ppm)) ∧
      (∀ a ∈ (plot_heatmap_grid width height radius ppm).1, 0 ≤ a ∧ a < (width : ℝ)) ∧
      (∀ a ∈ (plot_heatmap_grid width height radius ppm).2, 0 ≤ a ∧ a < (height : ℝ)) := by
  have hs : 0 < radius * ppm := mul_pos hr hp
  have hwr : (0 : ℝ) < (width : ℝ) := by exact_mod_cast hw
  have hhr : (0 : ℝ) < (height : ℝ) := by exact_mod_cast hh
  refine ⟨?_, ?_, ?_, ?_, ?_, ?_, ?_, ?_⟩
  · show (npArange 0 (width : ℝ) (radius * ppm)).length = _
    rw [npArange_length, sub_zero]
  · show (npArange 0 (height : ℝ) (radius * ppm)).length = _
    rw [npArange_length, sub_zero]
  · exact npArange_zero_length_pos _ _ hwr hs
  · exact npArange_zero_length_pos _ _ hhr hs
  · intro i h
    have hget := npArange_get 0 (width : ℝ) (radius * ppm) i h
    rw [zero_add] at hget
    exact hget
  · intro i h
    have hget := npArange_get 0 (height : ℝ) (radius * ppm) i h
    rw [zero_add] at hget
    exact hget
  · intro a ha
    exact npArange_zero_mem _ _ hs a ha
  · intro a ha
    exact npArange_zero_mem _ _ hs a ha

/-- Witness for C6: an 800×600 map at 10 pixels per meter and radius 5 m gives
`gridStep = 50` and a lattice of exactly 16 columns and 12 rows. -/
theorem grid_lattice_witness :
    ((plot_heatmap_grid 800 600 5 10).1).length = 16 ∧
      ((plot_heatmap_grid 800 600 5 10).2).length = 12 := by
  have h := grid_lattice 800 600 5 10 (by norm_num) (by norm_num) (by norm_num) (by norm_num)
  refine ⟨?_, ?_⟩
  · rw [h.1]
    have e : ((800 : ℕ) : ℝ) / ((5 : ℝ) * 10) = ((16 : ℤ) : ℝ) := by norm_num
    rw [e, Int.ceil_intCast]
    rfl
  · rw [h.2.1]
    have e : ((600 : ℕ) : ℝ) / ((5 : ℝ) * 10) = ((12 : ℤ) : ℝ) := by norm_num
    rw [e, Int.ceil_intCast]
    rfl

/-- Claim C7: every entry of the delivered field is exactly the negation of
the corresponding raw interpolated value (`Z = -Z`, line 309), for any fitted
interpolant and any grid. -/
theorem negatedField_is_negation (rbf : ℝ → ℝ → ℝ) (xg yg : List ℝ) (i j : ℕ) :
    ((negatedField rbf xg yg).getD i []).getD j 0 =
      -(((rbfEvalGrid rbf xg yg).getD i []).getD j 0) := by
  unfold negatedField
  simp only [List.getD_eq_getElem?_getD, List.getElem?_map]
  cases hrow : (rbfEvalGrid rbf xg yg)[i]? with
  | none => simp
  | some row =>
    simp only [Option.map_some', Option.getD_some, List.getElem?_map]
    cases hv : row[j]? with
    | none => simp
    | some v => simp

/-! ### Claims about the measurement store -/

theorem keyMatches_mk (x y : ℤ) (ssid : String) (v : ℚ) :
    keyMatches x y ssid ⟨x, y, ssid, v⟩ = true := by
  simp [keyMatches]

theorem keyMatches_trans_sameKey (x y : ℤ) (ssid : String) (a b : Measurement)
    (ha : keyMatches x y ssid a = true) (hb : keyMatches x y ssid b = true) :
    sameKeyB a b = true := by
  unfold keyMatches at ha hb
  unfold sameKeyB
  simp only [Bool.and_eq_true, beq_iff_eq] at ha hb ⊢
  exact ⟨⟨ha.1.1.trans hb.1.1.symm, ha.1.2.trans hb.1.2.symm⟩, ha.2.trans hb.2.symm⟩

/-- With at most one measurement per key, erasing the first key match leaves
no further match. -/
theorem findMeasurement_eraseP_none (ms : List Measurement) (x y : ℤ) (ssid : String)
    (hU : keyUnique ms = true) :
    (ms.eraseP (keyMatches x y ssid)).find? (keyMatches x y ssid) = none := by
  induction ms with
  | nil => rfl
  | cons m rest ih =>
    have hU2 : rest.all (fun m2 => !sameKeyB m m2) = true ∧ keyUnique rest = true := by
      have h0 := hU
      unfold keyUnique at h0
      rw [Bool.and_eq_true] at h0
      exact h0
    by_cases hm : keyMatches x y ssid m = true
    · rw [List.eraseP_cons_of_pos hm, List.find?_eq_none]
      intro m2 hm2 hk2
      have hs := keyMatches_trans_sameKey x y ssid m m2 hm hk2
      have hfalse : sameKeyB m m2 = false := by
        simpa using List.all_eq_true.mp hU2.1 m2 hm2
      rw [hfalse] at hs
      exact Bool.false_ne_true hs
    · rw [List.eraseP_cons_of_neg (by simpa using hm), List.find?_cons_of_neg _ hm]
      exact ih hU2.2

theorem findMeasurement_append_new (ms : List Measurement) (x y : ℤ) (ssid : String) (v : ℚ)
    (h : findMeasurement ms x y ssid = none) :
    findMeasurement (ms ++ [⟨x, y, ssid, v⟩]) x y ssid = some ⟨x, y, ssid, v⟩ := by
  unfold findMeasurement at h ⊢
  rw [List.find?_append, h, Option.none_or, List.find?_cons_of_pos _ (keyMatches_mk x y ssid v)]

/-- Case equation of `upsert`: no existing measurement, append. -/
theorem upsert_eq_of_none (ms : List Measurement) (x y : ℤ) (ssid : String) (v : ℚ)
    (h : findMeasurement ms x y ssid = none) :
    upsert ms x y ssid v = ms ++ [⟨x, y, ssid, v⟩] := by
  unfold upsert
  rw [h]

/-- Case equation of `upsert`: strictly stronger reading replaces. -/
theorem upsert_eq_of_lt (ms : List Measurement) (x y : ℤ) (ssid : String) (v : ℚ)
    (m : Measurement) (h : findMeasurement ms x y ssid = some m) (hlt : m.strength < v) :
    upsert ms x y ssid v = ms.eraseP (keyMatches x y ssid) ++ [⟨x, y, ssid, v⟩] := by
  unfold upsert
  rw [h]
  exact if_pos hlt

/-- Case equation of `upsert`: weaker or equal reading is rejected, the store
is returned unchanged. -/
theorem upsert_eq_of_ge (ms : List Measurement) (x y : ℤ) (ssid : String) (v : ℚ)
    (m : Measurement) (h : findMeasurement ms x y ssid = some m) (hge : ¬ m.strength < v) :
    upsert ms x y ssid v = ms := by
  unfold upsert
  rw [h]
  exact if_neg hge

theorem storedValue_upsert_replace (ms : List Measurement) (x y : ℤ) (ssid : String) (v : ℚ)
    (hU : keyUnique ms = true) :
    storedValue (ms.eraseP (keyMatches x y ssid) ++ [⟨x, y, ssid, v⟩]) x y ssid = some v := by
  unfold storedValue findMeasurement
  rw [List.find?_append, findMeasurement_eraseP_none ms x y ssid hU, Option.none_or,
    List.find?_cons_of_pos _ (keyMatches_mk x y ssid v)]
  rfl

/-- Claim C2: on a store with at most one measurement per key, `upsert`
replaces the stored value for the exact `(x, y, ssid)` key exactly when the
new value is strictly greater (otherwise the store is unchanged), and inserts
the value when the key is absent. -/
theorem upsert_replace_iff (ms : List Measurement) (x y : ℤ) (ssid : String) (v : ℚ)
    (hU : keyUnique ms = true) :
    (∀ w, storedValue ms x y ssid = some w →
      storedValue (upsert ms x y ssid v) x y ssid = some (if w < v then v else w) ∧
        (upsert ms x y ssid v = ms ↔ ¬ w < v)) ∧
    (storedValue ms x y ssid = none →
      storedValue (upsert ms x y ssid v) x y ssid = some v) := by
  constructor
  · intro w hw
    rcases Option.map_eq_some'.mp hw with ⟨m, hm, hms⟩
    by_cases hlt : m.strength < v
    · have hsv : storedValue (upsert ms x y ssid v) x y ssid = some v := by
        rw [upsert_eq_of_lt ms x y ssid v m hm hlt]
        exact storedValue_upsert_replace ms x y ssid v hU
      subst hms
      refine ⟨?_, ?_, ?_⟩
      · rw [hsv, if_pos hlt]
      · intro heq
        rw [heq] at hsv
        unfold storedValue at hsv
        rw [hm] at hsv
        simp only [Option.map_some'] at hsv
        exact absurd (Option.some.inj hsv) (ne_of_lt hlt)
      · intro hnlt
        exact absurd hlt hnlt
    · have hup : upsert ms x y ssid v = ms := upsert_eq_of_ge ms x y ssid v m hm hlt
      subst hms
      refine ⟨?_, ?_, ?_⟩
      · rw [hup, if_neg hlt]
        unfold storedValue
        rw [hm]
        rfl
      · intro _
        exact hlt
      · intro _
        exact hup
  · intro hn
    have hnone : findMeasurement ms x y ssid = none := by
      unfold storedValue at hn
      exact Option.map_eq_none'.mp hn
    rw [upsert_eq_of_none ms x y ssid v hnone]
    unfold storedValue
    rw [findMeasurement_append_new ms x y ssid v hnone]
    rfl

/-- Witness for C2: `upsert(10,10,"A",-50)` then `upsert(10,10,"A",-60)`
leaves `-50` stored; the subsequent `upsert(10,10,"A",-40)` makes it `-40`. -/
theorem upsert_replace_iff_witness :
    storedValue (upsert (upsert (upsert [] 10 10 "A" (-50)) 10 10 "A" (-60)) 10 10 "A" (-40))
        10 10 "A" = some (-40) := by
  have h := (upsert_replace_iff (upsert (upsert [] 10 10 "A" (-50)) 10 10 "A" (-60))
      10 10 "A" (-40) (by decide)).1 (-50) (by decide)
  rw [h.1]
  decide

theorem filter_not_eraseP (p : Measurement → Bool) (l : List Measurement) :
    (l.eraseP p).filter (fun a => !p a) = l.filter (fun a => !p a) := by
  induction l with
  | nil => rfl
  | cons a l ih =>
    by_cases h : p a = true
    · rw [List.eraseP_cons_of_pos h, List.filter_cons_of_neg (by simp [h])]
    · rw [List.eraseP_cons_of_neg (by simpa using h), List.filter_cons_of_pos (by simp [h]),
        List.filter_cons_of_pos (by simp [h]), ih]

theorem mem_eraseP_of_not (p : Measurement → Bool) (l : List Measurement) (a : Measurement)
    (ha : a ∈ l) (hp : p a = false) : a ∈ l.eraseP p := by
  induction l with
  | nil => cases ha
  | cons b l ih =>
    by_cases hb : p b = true
    · rw [List.eraseP_cons_of_pos hb]
      rcases List.mem_cons.mp ha with h | h
      · rw [h] at hp
        rw [hp] at hb
        simp at hb
      · exact h
    · rw [List.eraseP_cons_of_neg (by simpa using hb)]
      rcases List.mem_cons.mp ha with h | h
      · rw [h]
        exact List.mem_cons_self _ _
      · exact List.mem_cons_of_mem _ (ih h)

/-- Claim C10: `upsert` never touches measurements of a different
`(x, y, ssid)` key; a weaker-or-equal reading leaves the whole store
unchanged; and the set of stored keys never shrinks. -/
theorem upsert_frame (ms : List Measurement) (x y : ℤ) (ssid : String) (v : ℚ) :
    ((upsert ms x y ssid v).filter (fun m => !keyMatches x y ssid m) =
        ms.filter (fun m => !keyMatches x y ssid m)) ∧
      (∀ m, findMeasurement ms x y ssid = some m → ¬ m.strength < v →
        upsert ms x y ssid v = ms) ∧
      (∀ m ∈ ms, ∃ m2, m2 ∈ upsert ms x y ssid v ∧
        m2.x = m.x ∧ m2.y = m.y ∧ m2.ssid = m.ssid) := by
  have hnew : List.filter (fun m => !keyMatches x y ssid m) [(⟨x, y, ssid, v⟩ : Measurement)] = [] := by
    simp [keyMatches_mk]
  refine ⟨?_, ?_, ?_⟩
  · cases hf : findMeasurement ms x y ssid with
    | none =>
      rw [upsert_eq_of_none ms x y ssid v hf, List.filter_append, hnew, List.append_nil]
    | some m =>
      by_cases hlt : m.strength < v
      · rw [upsert_eq_of_lt ms x y ssid v m hf hlt, List.filter_append, hnew,
          List.append_nil, filter_not_eraseP]
      · rw [upsert_eq_of_ge ms x y ssid v m hf hlt]
  · intro m hm hge
    exact upsert_eq_of_ge ms x y ssid v m hm hge
  · intro m hm
    cases hf : findMeasurement ms x y ssid with
    | none =>
      refine ⟨m, ?_, rfl, rfl, rfl⟩
      rw [upsert_eq_of_none ms x y ssid v hf]
      exact List.mem_append_left _ hm
    | some m0 =>
      by_cases hlt : m0.strength < v
      · by_cases hk : keyMatches x y ssid m = true
        · have hk2 : (m.x = x ∧ m.y = y) ∧ m.ssid = ssid := by
            simpa only [keyMatches, Bool.and_eq_true, beq_iff_eq] using hk
          refine ⟨⟨x, y, ssid, v⟩, ?_, hk2.1.1.symm, hk2.1.2.symm, hk2.2.symm⟩
          rw [upsert_eq_of_lt ms x y ssid v m0 hf hlt]
          exact List.mem_append_right _ (List.mem_singleton_self _)
        · have hp : keyMatches x y ssid m = false := by
            cases hkb : keyMatches x y ssid m
            · rfl
            · exact absurd hkb hk
          refine ⟨m, ?_, rfl, rfl, rfl⟩
          rw [upsert_eq_of_lt ms x y ssid v m0 hf hlt]
          exact List.mem_append_left _ (mem_eraseP_of_not _ ms m hm hp)
      · rw [upsert_eq_of_ge ms x y ssid v m0 hf hlt]
        exact ⟨m, hm, rfl, rfl, rfl⟩

/-- Witness for C10: a weaker reading at the same key leaves the store
unchanged. -/
theorem upsert_frame_witness :
    upsert [⟨10, 10, "A", -50⟩] 10 10 "A" (-60) = [⟨10, 10, "A", -50⟩] :=
  (upsert_frame [⟨10, 10, "A", -50⟩] 10 10 "A" (-60)).2.1 ⟨10, 10, "A", -50⟩
    (by decide) (by decide)

/-! ### Claim about per-network sample deduplication -/

theorem dictLookup_dictSet_self {κ β : Type} [DecidableEq κ] (d : List (κ × β)) (k : κ)
    (v : β) : dictLookup (dictSet d k v) k = some v := by
  induction d with
  | nil => simp [dictSet, dictLookup]
  | cons kv rest ih =>
    obtain ⟨k2, v2⟩ := kv
    by_cases h : k2 = k
    · unfold dictSet
      rw [if_pos h]
      unfold dictLookup
      rw [if_pos rfl]
    · unfold dictSet
      rw [if_neg h]
      unfold dictLookup
      rw [if_neg h]
      exact ih

theorem dictLookup_dictSet_ne {κ β : Type} [DecidableEq κ] (d : List (κ × β)) (k1 k : κ)
    (v : β) (h : ¬ k1 = k) : dictLookup (dictSet d k1 v) k = dictLookup d k := by
  induction d with
  | nil =>
    unfold dictSet dictLookup
    rw [if_neg h]
    rfl
  | cons kv rest ih =>
    obtain ⟨k2, v2⟩ := kv
    by_cases h2 : k2 = k1
    · have h3 : ¬ k2 = k := by
        rw [h2]
        exact h
      unfold dictSet
      rw [if_pos h2]
      unfold dictLookup
      rw [if_neg h, if_neg h3]
    · unfold dictSet
      rw [if_neg h2]
      unfold dictLookup
      by_cases h4 : k2 = k
      · rw [if_pos h4, if_pos h4]
      · rw [if_neg h4, if_neg h4]
        exact ih

theorem mem_dictKeys_dictSet {κ β : Type} [DecidableEq κ] (d : List (κ × β)) (k a : κ)
    (v : β) (ha : a ∈ dictKeys (dictSet d k v)) : a = k ∨ a ∈ dictKeys d := by
  induction d with
  | nil =>
    left
    simpa [dictSet, dictKeys] using ha
  | cons kv rest ih =>
    obtain ⟨k2, v2⟩ := kv
    by_cases h2 : k2 = k
    · unfold dictSet at ha
      rw [if_pos h2] at ha
      unfold dictKeys at ha ⊢
      simp only [List.map_cons, List.mem_cons] at ha ⊢
      rcases ha with h | h
      · exact Or.inl h
      · exact Or.inr (Or.inr h)
    · unfold dictSet at ha
      rw [if_neg h2] at ha
      unfold dictKeys at ha ⊢
      simp only [List.map_cons, List.mem_cons] at ha ⊢
      rcases ha with h | h
      · exact Or.inr (Or.inl h)
      · rcases ih h with h3 | h3
        · exact Or.inl h3
        · exact Or.inr (Or.inr h3)

theorem nodup_dictKeys_dictSet {κ β : Type} [DecidableEq κ] (d : List (κ × β)) (k : κ)
    (v : β) (h : (dictKeys d).Nodup) : (dictKeys (dictSet d k v)).Nodup := by
  induction d with
  | nil => simp [dictSet, dictKeys]
  | cons kv rest ih =>
    obtain ⟨k2, v2⟩ := kv
    unfold dictKeys at h
    rw [List.map_cons, List.nodup_cons] at h
    by_cases h2 : k2 = k
    · subst h2
      unfold dictSet
      rw [if_pos rfl]
      unfold dictKeys
      rw [List.map_cons, List.nodup_cons]
      exact h
    · unfold dictSet
      rw [if_neg h2]
      unfold dictKeys
      rw [List.map_cons, List.nodup_cons]
      constructor
      · intro hmem
        rcases mem_dictKeys_dictSet rest k k2 v hmem with h3 | h3
        · exact h2 h3
        · exact h.1 h3
      · exact ih h.2

/-- Case equation of `filterStep`: measurement of another SSID, no change. -/
theorem filterStep_not_ssid (ssid : String) (acc : List ((ℤ × ℤ) × ℚ)) (m : Measurement)
    (h : ¬ m.ssid = ssid) : filterStep ssid acc m = acc := by
  unfold filterStep
  rw [if_neg h]

/-- Case equation of `filterStep`: location not seen yet, set the value. -/
theorem filterStep_absent (ssid : String) (acc : List ((ℤ × ℤ) × ℚ)) (m : Measurement)
    (h : m.ssid = ssid) (hl : dictLookup acc (m.x, m.y) = none) :
    filterStep ssid acc m = dictSet acc (m.x, m.y) m.strength := by
  unfold filterStep
  rw [if_pos h, hl]

/-- Case equation of `filterStep`: strictly stronger value replaces. -/
theorem filterStep_gt (ssid : String) (acc : List ((ℤ × ℤ) × ℚ)) (m : Measurement) (w : ℚ)
    (h : m.ssid = ssid) (hl : dictLookup acc (m.x, m.y) = some w) (hgt : w < m.strength) :
    filterStep ssid acc m = dictSet acc (m.x, m.y) m.strength := by
  unfold filterStep
  rw [if_pos h, hl]
  exact if_pos hgt

/-- Case equation of `filterStep`: weaker or equal value is dropped. -/
theorem filterStep_le (ssid : String) (acc : List ((ℤ × ℤ) × ℚ)) (m : Measurement) (w : ℚ)
    (h : m.ssid = ssid) (hl : dictLookup acc (m.x, m.y) = some w) (hle : ¬ w < m.strength) :
    filterStep ssid acc m = acc := by
  unfold filterStep
  rw [if_pos h, hl]
  exact if_neg hle

theorem listMaxQ_cons (a : ℚ) (l : List ℚ) :
    listMaxQ (a :: l) = optMaxQ (some a) (listMaxQ l) := by
  cases h : listMaxQ l with
  | none => simp [listMaxQ, optMaxQ, h]
  | some b => simp [listMaxQ, optMaxQ, h]

theorem optMaxQ_assoc (a b c : Option ℚ) :
    optMaxQ (optMaxQ a b) c = optMaxQ a (optMaxQ b c) := by
  cases a <;> cases b <;> cases c <;> simp [optMaxQ, max_assoc]

/-- The fold of lines 280-284 computes, at each location key, the maximum of
the matching strengths seen so far combined with whatever the accumulator
already held. -/
theorem filtered_fold_lookup (ssid : String) (x y : ℤ) (ms : List Measurement)
    (acc : List ((ℤ × ℤ) × ℚ)) :
    dictLookup (ms.foldl (filterStep ssid) acc) (x, y) =
      optMaxQ (dictLookup acc (x, y))
        (listMaxQ ((ms.filter (keyMatches x y ssid)).map Measurement.strength)) := by
  induction ms generalizing acc with
  | nil =>
    rw [List.foldl_nil]
    cases h : dictLookup acc (x, y) with
    | none => rfl
    | some w => rfl
  | cons m rest ih =>
    rw [List.foldl_cons, ih (filterStep ssid acc m)]
    by_cases hk : keyMatches x y ssid m = true
    · have hx : (m.x = x ∧ m.y = y) ∧ m.ssid = ssid := by
        simpa only [keyMatches, Bool.and_eq_true, beq_iff_eq] using hk
      have hkey : ((m.x, m.y) : ℤ × ℤ) = (x, y) := by
        rw [hx.1.1, hx.1.2]
      rw [List.filter_cons_of_pos hk, List.map_cons, listMaxQ_cons, ← optMaxQ_assoc]
      have harg : dictLookup (filterStep ssid acc m) (x, y) =
          optMaxQ (dictLookup acc (x, y)) (some m.strength) := by
        cases hl : dictLookup acc (x, y) with
        | none =>
          rw [filterStep_absent ssid acc m hx.2 (by rw [hkey]; exact hl), hkey,
            dictLookup_dictSet_self]
          rfl
        | some w =>
          by_cases hgt : w < m.strength
          · rw [filterStep_gt ssid acc m w hx.2 (by rw [hkey]; exact hl) hgt, hkey,
              dictLookup_dictSet_self]
            have hmax : max w m.strength = m.strength := max_eq_right (le_of_lt hgt)
            show some m.strength = some (max w m.strength)
            rw [hmax]
          · rw [filterStep_le ssid acc m w hx.2 (by rw [hkey]; exact hl) hgt, hl]
            have hmax : max w m.strength = w := max_eq_left (not_lt.mp hgt)
            show some w = some (max w m.strength)
            rw [hmax]
      rw [harg]
    · rw [List.filter_cons_of_neg hk]
      have harg : dictLookup (filterStep ssid acc m) (x, y) = dictLookup acc (x, y) := by
        by_cases hs : m.ssid = ssid
        · have hne : ¬ ((m.x, m.y) : ℤ × ℤ) = (x, y) := by
            intro hcon
            apply hk
            have h1 : m.x = x := congrArg Prod.fst hcon
            have h2 : m.y = y := congrArg Prod.snd hcon
            simp [keyMatches, h1, h2, hs]
          cases hl : dictLookup acc (m.x, m.y) with
          | none =>
            rw [filterStep_absent ssid acc m hs hl, dictLookup_dictSet_ne _ _ _ _ hne]
          | some w =>
            by_cases hgt : w < m.strength
            · rw [filterStep_gt ssid acc m w hs hl hgt, dictLookup_dictSet_ne _ _ _ _ hne]
            · rw [filterStep_le ssid acc m w hs hl hgt]
        · rw [filterStep_not_ssid ssid acc m hs]
      rw [harg]

theorem nodup_dictKeys_foldl (ssid : String) (ms : List Measurement)
    (acc : List ((ℤ × ℤ) × ℚ)) (h : (dictKeys acc).Nodup) :
    (dictKeys (ms.foldl (filterStep ssid) acc)).Nodup := by
  induction ms generalizing acc with
  | nil => exact h
  | cons m rest ih =>
    rw [List.foldl_cons]
    apply ih
    by_cases hs : m.ssid = ssid
    · cases hl : dictLookup acc (m.x, m.y) with
      | none =>
        rw [filterStep_absent ssid acc m hs hl]
        exact nodup_dictKeys_dictSet acc (m.x, m.y) m.strength h
      | some w =>
        by_cases hgt : w < m.strength
        · rw [filterStep_gt ssid acc m w hs hl hgt]
          exact nodup_dictKeys_dictSet acc (m.x, m.y) m.strength h
        · rw [filterStep_le ssid acc m w hs hl hgt]
          exact h
    · rw [filterStep_not_ssid ssid acc m hs]
      exact h

/-- Claim C8: the per-network sample dictionary built by `generate_heatmap`
has one entry per distinct location (its keys are duplicate-free), and the
value stored under a location is exactly the maximum signal strength among all
stored measurements of that network at that location (`none` when there is no
such measurement). -/
theorem samplesFor_dedup_max (ms : List Measurement) (ssid : String) (x y : ℤ) :
    (dictKeys (filtered_measurements ms ssid)).Nodup ∧
      dictLookup (filtered_measurements ms ssid) (x, y) =
        listMaxQ ((ms.filter (keyMatches x y ssid)).map Measurement.strength) := by
  constructor
  · exact nodup_dictKeys_foldl ssid ms [] (by simp [dictKeys])
  · rw [filtered_measurements, filtered_fold_lookup]
    rfl
